import Mathlib

/-!
Shallow embedding of the DeepAds ad-copy core (deepads_research.py,
deepads_copy.py and the aspect-ratio lookup of deepads_image.py), together
with proofs settling the specification claims about it.

Python strings are modelled as Lean `String` values, and the Python string
primitives used by the source (strip, lower, capitalize, title, split,
replace, join, slicing, substring test) are implemented on the underlying
character lists so that every definition evaluates by kernel reduction.
-/

namespace DeepAds

/-! ## Python string primitives -/

/-- Python str.strip(): drop whitespace from both ends of a character list. -/
def stripChars (l : List Char) : List Char :=
  ((l.dropWhile Char.isWhitespace).reverse.dropWhile Char.isWhitespace).reverse

/-- Python str.strip() on strings. -/
def pyStrip (s : String) : String := ⟨stripChars s.data⟩

/-- Python str.lower(). -/
def pyLower (s : String) : String := ⟨s.data.map Char.toLower⟩

/-- Python str.capitalize(): first character uppercased, the rest lowercased. -/
def pyCapitalize (s : String) : String :=
  match s.data with
  | [] => ""
  | c :: cs => ⟨c.toUpper :: cs.map Char.toLower⟩

/-- Helper for Python str.title(): the boolean records whether the previous
character was a letter. -/
def titleMap : Bool → List Char → List Char
  | _, [] => []
  | prevAlpha, c :: cs =>
    (if c.isAlpha then (if prevAlpha then c.toLower else c.toUpper) else c) ::
      titleMap c.isAlpha cs

/-- Python str.title(): uppercase every letter that follows a non-letter,
lowercase every other letter. -/
def pyTitle (s : String) : String := ⟨titleMap false s.data⟩

/-- Helper for Python str.split() with no separator: accumulates the current
word (reversed) and splits on whitespace runs, producing no empty words. -/
def wordsAux : List Char → List Char → List (List Char)
  | acc, [] => if acc = [] then [] else [acc.reverse]
  | acc, c :: cs =>
    if c.isWhitespace then
      (if acc = [] then wordsAux [] cs else acc.reverse :: wordsAux [] cs)
    else wordsAux (c :: acc) cs

/-- Python str.split() with no separator argument. -/
def pyWords (s : String) : List String := (wordsAux [] s.data).map String.mk

/-- Helper for Python str.split(sep) with a one-character separator:
empty pieces are kept, and the result is always non-empty. -/
def splitOnCharAux (c : Char) : List Char → List (List Char)
  | [] => [[]]
  | x :: xs =>
    match splitOnCharAux c xs with
    | [] => [[]]
    | w :: ws => if x = c then [] :: w :: ws else (x :: w) :: ws

/-- Python str.split(sep) for a one-character separator. -/
def pySplitChar (s : String) (c : Char) : List String :=
  (splitOnCharAux c s.data).map String.mk

/-- Python `sub in s` substring test. -/
def pyContains (s sub : String) : Bool :=
  s.data.tails.any (fun t => sub.data.isPrefixOf t)

/-- Python slicing s[:n]. -/
def pyTake (s : String) (n : Nat) : String := ⟨s.data.take n⟩

/-- Python sep.join(xs). -/
def pyJoin (sep : String) (xs : List String) : String :=
  ⟨List.intercalate sep.data (xs.map String.data)⟩

/-- Helper for Python str.replace: structural recursion on an explicit fuel
bound, so that the definition evaluates by kernel reduction. The fuel never
runs out when initialized with the length of the text, since every step
consumes at least one character. -/
def replaceListAux (pat rep : List Char) : Nat → List Char → List Char
  | _, [] => []
  | 0, t => t
  | fuel + 1, c :: cs =>
    if pat ≠ [] ∧ pat.isPrefixOf (c :: cs) then
      rep ++ replaceListAux pat rep fuel (List.drop (pat.length - 1) cs)
    else
      c :: replaceListAux pat rep fuel cs

/-- Python str.replace(pat, rep) on character lists: scan left to right,
replacing every (non-overlapping) occurrence of `pat` by `rep`. -/
def replaceList (pat rep t : List Char) : List Char := replaceListAux pat rep t.length t

/-- Python str.replace(pat, rep) on strings. -/
def pyReplace (s pat rep : String) : String := ⟨replaceList pat.data rep.data s.data⟩

/-! ## deepads_research.py -/

/-- The fixed stopword set `_STOPWORDS`. -/
def STOPWORDS : List String :=
  ["the", "a", "an", "and", "or", "to", "of", "for", "in", "on", "is", "are",
   "it", "this", "that", "with", "at", "be", "as", "by", "from", "about", "was",
   "were", "have", "had", "has", "but", "if", "they", "you", "we", "i", "so"]

/-- `_tokenize`: lowercase, replace non-alphanumeric non-whitespace characters
by a space, split on whitespace, drop stopwords. -/
def tokenize (text : String) : List String :=
  let cleaned : List Char :=
    (pyLower text).data.map (fun ch => if ch.isAlphanum || ch.isWhitespace then ch else ' ')
  ((wordsAux [] cleaned).map String.mk).filter (fun t => ! STOPWORDS.contains t)

/-- The `ResearchInsights` dataclass. -/
structure ResearchInsights where
  top_keywords : List String
  pains : List String
  desires : List String
  objections : List String
  raw_notes : String
deriving DecidableEq, Inhabited

/-- Helper for `dedupFirst`: keep the elements not yet seen, in order,
recording seen elements in the accumulator. -/
def dedupFirstAux (seen : List String) : List String → List String
  | [] => []
  | t :: ts =>
    if t ∈ seen then dedupFirstAux seen ts else t :: dedupFirstAux (t :: seen) ts

/-- The distinct elements of a list in first-seen order: the key order of a
Python `Counter` built from the list. -/
def dedupFirst (l : List String) : List String := dedupFirstAux [] l

/-- The (token, frequency) pairs of a Python `Counter`, in key insertion
order. -/
def tokenItems (tokens : List String) : List (String × Nat) :=
  (dedupFirst tokens).map (fun w => (w, tokens.count w))

/-- Pair each element with its position, starting from `n`. -/
def idxList {α : Type} (n : Nat) : List α → List (Nat × α)
  | [] => []
  | a :: as => (n, a) :: idxList (n + 1) as

/-- Ordering used by `Counter.most_common`: descending count, ties broken by
original (insertion) position. -/
def mcRel : Nat × (String × Nat) → Nat × (String × Nat) → Prop :=
  fun a b => b.2.2 < a.2.2 ∨ (a.2.2 = b.2.2 ∧ a.1 ≤ b.1)

instance : DecidableRel mcRel := fun a b =>
  inferInstanceAs (Decidable (b.2.2 < a.2.2 ∨ (a.2.2 = b.2.2 ∧ a.1 ≤ b.1)))

/-- The Counter items of the token list, position-tagged and sorted by
`mcRel`. -/
def sortedCounter (tokens : List String) : List (Nat × (String × Nat)) :=
  List.insertionSort mcRel (idxList 0 (tokenItems tokens))

/-- `Counter.most_common(n)`: the (token, count) pairs sorted by descending
count with ties in insertion order, truncated to `n`. A stable sort by
descending count is the same as any sort by the total order (count
descending, original position ascending), which is how it is computed here. -/
def mostCommon (tokens : List String) (n : Nat) : List (String × Nat) :=
  ((sortedCounter tokens).map Prod.snd).take n

/-- Trigger phrases for pains. -/
def PAIN_TRIGGERS : List String :=
  ["frustrated", "tired of", "annoyed", "hate", "sick of", "doesn\u0027t work", "does not work"]

/-- Trigger phrases for desires. -/
def DESIRE_TRIGGERS : List String :=
  ["want", "wish", "would love", "looking for", "need", "dream"]

/-- Trigger phrases for objections. -/
def OBJECTION_TRIGGERS : List String :=
  ["worried", "not sure", "concerned", "skeptical", "afraid"]

/-- `any(trigger in lower for trigger in triggers)` where `lower` is the
lowercased line. -/
def matchesAny (line : String) (triggers : List String) : Bool :=
  triggers.any (fun tr => pyContains (pyLower line) tr)

/-- The `combined` text of `analyze_market_text`. -/
def combinedText (product_description voc_text : String) : String :=
  pyStrip (product_description ++ "\n" ++ voc_text)

/-- The `keywords` list of `analyze_market_text`:
`[w for w, c in counts.most_common(30) if c > 1][:15]`. -/
def keywordsOf (tokens : List String) : List String :=
  (((mostCommon tokens 30).filter (fun wc => 1 < wc.2)).map Prod.fst).take 15

/-- The `lines` list of `analyze_market_text`: non-empty stripped lines of the
VOC text. -/
def vocLines (voc_text : String) : List String :=
  ((pySplitChar voc_text '\n').map pyStrip).filter (fun l => l != "")

/-- The heuristic classifier: the VOC lines matching one of the triggers, in
line order. -/
def classify (voc_text : String) (triggers : List String) : List String :=
  (vocLines voc_text).filter (fun line => matchesAny line triggers)

/-- The `pains` list after the fallback step. -/
def painsOf (product_description voc_text : String) : List String :=
  if classify voc_text PAIN_TRIGGERS = [] ∧ product_description ≠ "" then
    ["People struggle to get consistent results with current solutions for " ++
      pyTake product_description 80 ++ "..."]
  else classify voc_text PAIN_TRIGGERS

/-- The `desires` list after the fallback step. -/
def desiresOf (product_description voc_text : String) : List String :=
  if classify voc_text DESIRE_TRIGGERS = [] ∧ product_description ≠ "" then
    ["They want a simpler, faster way to benefit from " ++
      pyTake product_description 80 ++ "."]
  else classify voc_text DESIRE_TRIGGERS

/-- `analyze_market_text`: the analysis entry point. -/
def analyze_market_text (product_description voc_text : String) : ResearchInsights :=
  ⟨keywordsOf (tokenize (combinedText product_description voc_text)),
   painsOf product_description voc_text,
   desiresOf product_description voc_text,
   classify voc_text OBJECTION_TRIGGERS,
   voc_text⟩

/-! ## deepads_image.py (aspect-ratio lookup used by the prompt builder) -/

/-- `suggest_aspect_ratio_for_platform`: fixed per-platform lookup with
default "4:5". -/
def suggest_aspect_ratio_for_platform (platform : String) : String :=
  if platform = "Facebook" then "1:1 or 4:5"
  else if platform = "Instagram" then "4:5 (feed) or 9:16 (Reels)"
  else if platform = "TikTok" then "9:16"
  else if platform = "YouTube" then "16:9"
  else if platform = "LinkedIn" then "1.91:1 or 1:1"
  else if platform = "X (Twitter)" then "16:9"
  else if platform = "Display" then "300x250 / 728x90 / 160x600"
  else "4:5"

/-! ## deepads_copy.py -/

/-- The `AdConfig` dataclass. -/
structure AdConfig where
  product_description : String
  target_audience : String
  platform : String
  objective : String
  tone : String
  brand_personality : List String
  cta_label : String
  custom_cta : String
  frameworks : List String
  voice_style : String
deriving DecidableEq, Inhabited

/-- The `AdVariant` dataclass. -/
structure AdVariant where
  framework : String
  headline : String
  body : String
  cta : String
  short_link : String
  ltx_prompt : String
deriving DecidableEq, Inhabited

/-- `_choose_keyword`: first keyword, or "innovation" when the list is empty. -/
def choose_keyword (insights : ResearchInsights) : String :=
  match insights.top_keywords with
  | [] => "innovation"
  | k :: _ => k

/-- The objective-to-CTA-label dict lookup of `_choose_cta`, with its
`.get(..., "Learn More")` default. -/
def ctaObjectiveMapping (objective : String) : String :=
  if objective = "Awareness" then "Learn More"
  else if objective = "Traffic" then "Learn More"
  else if objective = "Conversion" then "Shop Now"
  else if objective = "Lead Gen" then "Get Started"
  else if objective = "Retention" then "See What\u0027s New"
  else "Learn More"

/-- `_choose_cta`. -/
def choose_cta (config : AdConfig) : String :=
  if pyStrip config.custom_cta ≠ "" then pyStrip config.custom_cta
  else if config.cta_label = "Default for Objective" then ctaObjectiveMapping config.objective
  else config.cta_label

/-- The `replacements` dict of `_simplify_text_level`, in insertion order. -/
def JARGON : List (String × String) :=
  [("optimize", "improve"), ("conversion", "results"),
   ("experience", "use"), ("leverage", "use")]

/-- `_simplify_text_level`: for "Very Simple"/"Simple", apply each jargon
substitution (lowercase form, then capitalized form); for "Technical",
append the fixed technical note; otherwise return the text unchanged. -/
def simplify_text_level (text voice_style : String) : String :=
  if voice_style = "Very Simple" ∨ voice_style = "Simple" then
    JARGON.foldl
      (fun t pr => pyReplace (pyReplace t pr.1 pr.2) (pyCapitalize pr.1) (pyCapitalize pr.2))
      text
  else if voice_style = "Technical" then
    text ++ "\n\nTech note: Built with data-driven optimization in mind."
  else text

/-- The `product` expression of `_generate_headline`:
`" ".join(description.strip().split()[:4]) or "Your Product"`. -/
def headlineProductName (product_description : String) : String :=
  let joined := pyJoin " " ((pyWords (pyStrip product_description)).take 4)
  if joined = "" then "Your Product" else joined

/-- `config.target_audience or "your audience"`. -/
def audienceOrDefault (target_audience : String) : String :=
  if target_audience = "" then "your audience" else target_audience

/-- `_generate_headline`. -/
def generate_headline (config : AdConfig) (insights : ResearchInsights) (framework : String) :
    String :=
  let keyword := choose_keyword insights
  let product := headlineProductName config.product_description
  let audience := audienceOrDefault config.target_audience
  if framework = "AIDA" then
    product ++ ": The " ++ pyTitle keyword ++ " Upgrade " ++ audience ++ " Actually Use"
  else if framework = "PAS" then
    "Tired of " ++ pyLower keyword ++ " Failures? Meet " ++ product
  else if framework = "4Ps" then
    product ++ " – " ++ pyTitle keyword ++ " in Every Detail"
  else if framework = "Story" then
    "How " ++ pyTitle audience ++ " Go From Stuck to Thriving with " ++ product
  else
    product ++ ": Experience " ++ pyTitle keyword ++ " Today"

/-- `_generate_body`: framework templates, then the voice-style pass. -/
def generate_body (config : AdConfig) (insights : ResearchInsights) (framework : String) :
    String :=
  let keyword := choose_keyword insights
  let pains := insights.pains.take 2
  let desires := insights.desires.take 2
  let objections := insights.objections.take 1
  let base := pyCapitalize (pyStrip config.product_description)
  let audience := audienceOrDefault config.target_audience
  let body :=
    if framework = "AIDA" then
      let desireLine :=
        let j := pyJoin " " desires
        if j = "" then "Imagine a simpler, smoother way to hit your goals." else j
      "**Attention**  \n" ++ pyTitle audience ++ " are craving " ++ pyLower keyword ++
        " that actually works.\n\n**Interest**  \n" ++ base ++ " is built for " ++ audience ++
        " who want less friction and more momentum.\n\n**Desire**  \n" ++ desireLine ++
        "\n\n**Action**  \nTap the CTA to move from “thinking about it” to “doing it” today."
    else if framework = "PAS" then
      let problem :=
        match pains with
        | [] => "wasting time on tools that don\u0027t fit " ++ audience
        | p :: _ => p
      let agitation :=
        match pains with
        | _ :: p1 :: _ => p1
        | _ => "your team is tired of trying to duct-tape solutions together"
      "**Problem**  \nYou’re " ++ problem ++ ".\n\n**Agitation**  \nAnd it’s not just annoying – " ++
        agitation ++ ".\n\n**Solution**  \n" ++ base ++ " wraps " ++ pyLower keyword ++
        " around how " ++ audience ++ " already work, so you get results without the chaos."
    else if framework = "4Ps" then
      let desireLine :=
        match desires with
        | [] => "get consistent, predictable results"
        | d :: _ => d
      "**Product**  \n" ++ base ++ " designed specifically for " ++ audience ++
        ".\n\n**Price**  \nPriced so that " ++ audience ++ " can " ++ desireLine ++
        " without blowing the budget.\n\n**Place**  \nLaunch in minutes on " ++ config.platform ++
        ".\n\n**Promotion**  \nEarly adopters get our " ++ pyLower keyword ++ " playbook free."
    else if framework = "Story" then
      let obj :=
        match objections with
        | [] => "wondering if this really works for " ++ audience
        | o :: _ => o
      let stuck :=
        match pains with
        | [] => "juggling tools and tactics"
        | p :: _ => p
      let saw :=
        match desires with
        | [] => "momentum in days, not months"
        | d :: _ => d
      let after :=
        match desires with
        | _ :: d1 :: _ => d1
        | _ => "hit goals with less stress"
      "**Before**  \n" ++ pyTitle audience ++ " were stuck " ++ stuck ++
        ".\n\n**Turning Point**  \nThey tried " ++ base ++ " and saw " ++ saw ++
        ".\n\n**After**  \nNow they " ++ after ++ " – even if they were " ++ obj ++ " at first."
    else base
  simplify_text_level body config.voice_style

/-- `_generate_short_link`. -/
def generate_short_link (framework : String) : String :=
  "https://deepads.io/" ++ pyReplace (pyLower framework) " " "-" ++ "-campaign"

/-- `_generate_ltx_prompt`. -/
def generate_ltx_prompt (config : AdConfig) (variant : AdVariant) (insights : ResearchInsights) :
    String :=
  let aspect := suggest_aspect_ratio_for_platform config.platform
  let audience := if config.target_audience = "" then "ideal customers" else config.target_audience
  let painsStr :=
    let j := pyJoin ", " (insights.pains.take 3)
    if j = "" then "their current frustrations" else j
  let desiresStr :=
    let j := pyJoin ", " (insights.desires.take 3)
    if j = "" then "the outcome they want" else j
  let style :=
    let j := pyJoin ", " config.brand_personality
    if j = "" then "clean, modern, trustworthy" else j
  pyStrip
    ("\nVideo ad for " ++ config.platform ++ " in " ++ aspect ++
      " aspect ratio.\n\nScene 1 (Hook): \n- Visual: Close-up of " ++ audience ++
      " dealing with " ++ painsStr ++ ".\n- On-screen text: \"" ++ variant.headline ++
      "\"\n\nScene 2 (Solution):\n- Visual: " ++ pyTake config.product_description 120 ++
      " in action, clear UI/product shots.\n- On-screen text: Short benefit bullets highlighting " ++
      desiresStr ++ ".\n\nScene 3 (CTA):\n- Visual: Clean end card with logo and simple background.\n- On-screen text: \"" ++
      variant.cta ++ "\"\n\nStyle: " ++ style ++ ".\nTone: " ++ config.tone ++ ".\n")

/-- One iteration of the generation loop: build a variant for one framework,
then fill in its prompt. -/
def build_variant (config : AdConfig) (insights : ResearchInsights) (fw : String) : AdVariant :=
  let draft : AdVariant :=
    ⟨fw, generate_headline config insights fw, generate_body config insights fw,
      choose_cta config, generate_short_link fw, ""⟩
  { draft with ltx_prompt := generate_ltx_prompt config draft insights }

/-- `generate_ad_variants_with_alex`: the generation entry point. The Python
function mutates `config.frameworks` in place when the list is empty, so the
embedding returns the final state of the config alongside the variants. -/
def generate_ad_variants_with_alex (config : AdConfig) (insights : ResearchInsights) :
    List AdVariant × AdConfig :=
  let config' := if config.frameworks = [] then { config with frameworks := ["AIDA"] } else config
  (config'.frameworks.map (build_variant config' insights), config')

/-! ## Concrete inputs used by witnesses and counterexamples -/

/-- An empty research input, used as a concrete input in several witnesses. -/
def emptyInsights : ResearchInsights := ⟨[], [], [], [], ""⟩

/-- A config requesting the same framework twice. -/
def duplicateFrameworksConfig : AdConfig :=
  ⟨"", "", "", "", "", [], "", "", ["AIDA", "AIDA"], ""⟩

/-- A config with an empty frameworks list. -/
def emptyFrameworksConfig : AdConfig := ⟨"", "", "", "", "", [], "", "", [], ""⟩

/-- Concrete input for the C4 witness: default sentinel, "Conversion"
objective, no custom CTA. -/
def ctaWitnessConfig : AdConfig :=
  ⟨"", "", "", "Conversion", "", [], "Default for Objective", "", ["Q"], ""⟩

/-- Concrete whitespace-only config for the C10 witness. -/
def whitespaceConfig : AdConfig := ⟨" ", "", "", "", "", [], "", "", ["AIDA"], ""⟩

/-- Concrete config with an unknown framework and a lowercase description. -/
def unknownFrameworkConfig : AdConfig :=
  ⟨"hello world", "", "", "", "", [], "", "", ["Zzz"], "Balanced"⟩

/-! ## Claim C9: checked (Option-valued) translations

Every Python list subscript of the source (the only operations that could
raise on the declared input domain) is rendered as a checked `List.get?`
access guarded exactly as in the source; the entry points then return
`Option` results. `analyze_market_text` performs no partial operation at all
(slicing, splitting, dict lookups and joins are total in Python), so its
checked version is the function itself. -/

/-- `_choose_keyword` with a checked subscript:
`insights.top_keywords[0] if insights.top_keywords else "innovation"`. -/
def choose_keyword_opt (insights : ResearchInsights) : Option String :=
  if insights.top_keywords ≠ [] then insights.top_keywords.get? 0 else pure "innovation"

/-- `_generate_headline` with checked keyword access. -/
def generate_headline_opt (config : AdConfig) (insights : ResearchInsights)
    (framework : String) : Option String := do
  let keyword ← choose_keyword_opt insights
  let product := headlineProductName config.product_description
  let audience := audienceOrDefault config.target_audience
  if framework = "AIDA" then
    pure (product ++ ": The " ++ pyTitle keyword ++ " Upgrade " ++ audience ++ " Actually Use")
  else if framework = "PAS" then
    pure ("Tired of " ++ pyLower keyword ++ " Failures? Meet " ++ product)
  else if framework = "4Ps" then
    pure (product ++ " – " ++ pyTitle keyword ++ " in Every Detail")
  else if framework = "Story" then
    pure ("How " ++ pyTitle audience ++ " Go From Stuck to Thriving with " ++ product)
  else
    pure (product ++ ": Experience " ++ pyTitle keyword ++ " Today")

/-- `_generate_body` with every subscript checked, guarded as in the source
(`pains[0] if pains else ...`, `pains[1] if len(pains) > 1 else ...`, etc.). -/
def generate_body_opt (config : AdConfig) (insights : ResearchInsights)
    (framework : String) : Option String := do
  let keyword ← choose_keyword_opt insights
  let pains := insights.pains.take 2
  let desires := insights.desires.take 2
  let objections := insights.objections.take 1
  let base := pyCapitalize (pyStrip config.product_description)
  let audience := audienceOrDefault config.target_audience
  let body ←
    if framework = "AIDA" then
      let desireLine :=
        let j := pyJoin " " desires
        if j = "" then "Imagine a simpler, smoother way to hit your goals." else j
      pure ("**Attention**  \n" ++ pyTitle audience ++ " are craving " ++ pyLower keyword ++
        " that actually works.\n\n**Interest**  \n" ++ base ++ " is built for " ++ audience ++
        " who want less friction and more momentum.\n\n**Desire**  \n" ++ desireLine ++
        "\n\n**Action**  \nTap the CTA to move from “thinking about it” to “doing it” today.")
    else if framework = "PAS" then do
      let problem ←
        if pains ≠ [] then pains.get? 0
        else pure ("wasting time on tools that don\u0027t fit " ++ audience)
      let agitation ←
        if 1 < pains.length then pains.get? 1
        else pure "your team is tired of trying to duct-tape solutions together"
      pure ("**Problem**  \nYou’re " ++ problem ++
        ".\n\n**Agitation**  \nAnd it’s not just annoying – " ++ agitation ++
        ".\n\n**Solution**  \n" ++ base ++ " wraps " ++ pyLower keyword ++
        " around how " ++ audience ++ " already work, so you get results without the chaos.")
    else if framework = "4Ps" then do
      let desireLine ←
        if desires ≠ [] then desires.get? 0
        else pure "get consistent, predictable results"
      pure ("**Product**  \n" ++ base ++ " designed specifically for " ++ audience ++
        ".\n\n**Price**  \nPriced so that " ++ audience ++ " can " ++ desireLine ++
        " without blowing the budget.\n\n**Place**  \nLaunch in minutes on " ++ config.platform ++
        ".\n\n**Promotion**  \nEarly adopters get our " ++ pyLower keyword ++ " playbook free.")
    else if framework = "Story" then do
      let obj ←
        if objections ≠ [] then objections.get? 0
        else pure ("wondering if this really works for " ++ audience)
      let stuck ←
        if pains ≠ [] then pains.get? 0 else pure "juggling tools and tactics"
      let saw ←
        if desires ≠ [] then desires.get? 0 else pure "momentum in days, not months"
      let after ←
        if 1 < desires.length then desires.get? 1 else pure "hit goals with less stress"
      pure ("**Before**  \n" ++ pyTitle audience ++ " were stuck " ++ stuck ++
        ".\n\n**Turning Point**  \nThey tried " ++ base ++ " and saw " ++ saw ++
        ".\n\n**After**  \nNow they " ++ after ++ " – even if they were " ++ obj ++ " at first.")
    else
      pure base
  pure (simplify_text_level body config.voice_style)

/-- The generation loop body with checked accesses. -/
def build_variant_opt (config : AdConfig) (insights : ResearchInsights) (fw : String) :
    Option AdVariant := do
  let headline ← generate_headline_opt config insights fw
  let body ← generate_body_opt config insights fw
  let draft : AdVariant :=
    ⟨fw, headline, body, choose_cta config, generate_short_link fw, ""⟩
  pure { draft with ltx_prompt := generate_ltx_prompt config draft insights }

/-- The generation entry point with checked accesses. -/
def generate_ad_variants_with_alex_opt (config : AdConfig) (insights : ResearchInsights) :
    Option (List AdVariant) :=
  let config' := if config.frameworks = [] then { config with frameworks := ["AIDA"] } else config
  config'.frameworks.mapM (build_variant_opt config' insights)

/-- The analysis entry point performs no partial operation, so its checked
version is the function itself. -/
def analyze_market_text_opt (product_description voc_text : String) :
    Option ResearchInsights :=
  pure (analyze_market_text product_description voc_text)

instance : IsTotal (Nat × (String × Nat)) mcRel := ⟨by
  intro a b
  unfold mcRel
  rcases lt_trichotomy a.2.2 b.2.2 with h | h | h
  · exact Or.inr (Or.inl h)
  · rcases Nat.le_total a.1 b.1 with hle | hle
    · exact Or.inl (Or.inr ⟨h, hle⟩)
    · exact Or.inr (Or.inr ⟨h.symm, hle⟩)
  · exact Or.inl (Or.inl h)⟩

instance : IsTrans (Nat × (String × Nat)) mcRel := ⟨by
  intro a b c hab hbc
  unfold mcRel at *
  rcases hab with h1 | ⟨h1, h1'⟩ <;> rcases hbc with h2 | ⟨h2, h2'⟩
  · exact Or.inl (by omega)
  · exact Or.inl (by omega)
  · exact Or.inl (by omega)
  · exact Or.inr ⟨by omega, by omega⟩⟩

/-- The substitution patterns other than lowercase "optimize": their presence
in a body can interact with the "improve" produced for it. -/
def JARGON_PATTERNS : List String :=
  ["Optimize", "conversion", "Conversion", "experience", "Experience",
   "leverage", "Leverage"]

/-! ## Helper lemmas about the generation entry point -/

/-- The config actually used by the generation loop (and returned). -/
lemma generate_snd (config : AdConfig) (insights : ResearchInsights) :
    (generate_ad_variants_with_alex config insights).2 =
      if config.frameworks = [] then { config with frameworks := ["AIDA"] } else config := rfl

/-- Every produced variant is `build_variant` of the (possibly defaulted)
config at some framework of its list. -/
lemma mem_generate {config : AdConfig} {insights : ResearchInsights} {v : AdVariant}
    (hv : v ∈ (generate_ad_variants_with_alex config insights).1) :
    ∃ fw, fw ∈ (generate_ad_variants_with_alex config insights).2.frameworks ∧
      v = build_variant (generate_ad_variants_with_alex config insights).2 insights fw := by
  unfold generate_ad_variants_with_alex at hv ⊢
  obtain ⟨fw, hfw, hv⟩ := List.mem_map.mp hv
  exact ⟨fw, hfw, hv.symm⟩

lemma build_variant_framework (config : AdConfig) (insights : ResearchInsights) (fw : String) :
    (build_variant config insights fw).framework = fw := rfl

lemma build_variant_headline (config : AdConfig) (insights : ResearchInsights) (fw : String) :
    (build_variant config insights fw).headline = generate_headline config insights fw := rfl

lemma build_variant_body (config : AdConfig) (insights : ResearchInsights) (fw : String) :
    (build_variant config insights fw).body = generate_body config insights fw := rfl

lemma build_variant_cta (config : AdConfig) (insights : ResearchInsights) (fw : String) :
    (build_variant config insights fw).cta = choose_cta config := rfl

/-- Updating only the frameworks field changes none of the inputs read by the
CTA, headline and body generators. -/
lemma choose_cta_update (config : AdConfig) (fws : List String) :
    choose_cta { config with frameworks := fws } = choose_cta config := rfl

lemma generate_headline_update (config : AdConfig) (insights : ResearchInsights)
    (fws : List String) (fw : String) :
    generate_headline { config with frameworks := fws } insights fw =
      generate_headline config insights fw := rfl

lemma generate_body_update (config : AdConfig) (insights : ResearchInsights)
    (fws : List String) (fw : String) :
    generate_body { config with frameworks := fws } insights fw =
      generate_body config insights fw := rfl

lemma headI_mem {α : Type} [Inhabited α] {l : List α} (h : l ≠ []) : l.headI ∈ l := by
  cases l with
  | nil => exact absurd rfl h
  | cons a as => exact List.mem_cons_self a as

lemma ne_empty_left (a b : String) (ha : a ≠ "") : a ++ b ≠ "" := by
  intro hcon
  apply ha
  have hd := congrArg String.data hcon
  rw [String.data_append] at hd
  have : a.data = [] := (List.append_eq_nil.mp hd).1
  exact String.ext this

/-! ## Claim C3 -/

/-- C3: the generation entry point returns variants in the same order as the
requested frameworks without deduplicating them; an empty frameworks list
yields exactly the one default framework "AIDA". -/
theorem claim_C3 (config : AdConfig) (insights : ResearchInsights) :
    (generate_ad_variants_with_alex config insights).1.map AdVariant.framework =
      (if config.frameworks = [] then ["AIDA"] else config.frameworks) := by
  unfold generate_ad_variants_with_alex
  by_cases h : config.frameworks = [] <;>
    simp [h, List.map_map, Function.comp_def, build_variant_framework]

/-! ## Claim C2 (corrected) -/

/-- C2 is false as stated: requesting the same framework twice yields two
variants, while the number of distinct frameworks requested is one. -/
theorem claim_C2_counterexample :
    (generate_ad_variants_with_alex duplicateFrameworksConfig emptyInsights).1.length = 2 ∧
      duplicateFrameworksConfig.frameworks.dedup.length = 1 ∧
      (generate_ad_variants_with_alex duplicateFrameworksConfig emptyInsights).1.length ≠
        max 1 duplicateFrameworksConfig.frameworks.dedup.length := by
  refine ⟨?_, ?_, ?_⟩ <;> decide

/-- C2 amended: the number of variants equals the number of frameworks
requested (duplicates included), with a minimum of one when the list is
empty. -/
theorem claim_C2_amended (config : AdConfig) (insights : ResearchInsights) :
    (generate_ad_variants_with_alex config insights).1.length =
      max 1 config.frameworks.length := by
  unfold generate_ad_variants_with_alex
  by_cases h : config.frameworks = []
  · simp [h]
  · have hpos : 0 < config.frameworks.length := List.length_pos.mpr h
    simp only [h, if_false, List.length_map]
    omega

/-! ## Claim C7 (corrected) -/

/-- C7 is false as stated: with an empty frameworks list, the generation entry
point mutates the config in place, setting its frameworks field to ["AIDA"],
so the config after the call differs from its value before the call. -/
theorem claim_C7_counterexample :
    (generate_ad_variants_with_alex emptyFrameworksConfig emptyInsights).2.frameworks =
        ["AIDA"] ∧
      emptyFrameworksConfig.frameworks = [] ∧
      (generate_ad_variants_with_alex emptyFrameworksConfig emptyInsights).2 ≠
        emptyFrameworksConfig := by
  refine ⟨rfl, rfl, ?_⟩ ; decide

/-- C7 amended: the config is unchanged by generation whenever its frameworks
list is non-empty; when the list is empty, exactly the frameworks field is
changed, to the default ["AIDA"]. -/
theorem claim_C7_amended (config : AdConfig) (insights : ResearchInsights) :
    (config.frameworks ≠ [] →
      (generate_ad_variants_with_alex config insights).2 = config) ∧
    (config.frameworks = [] →
      (generate_ad_variants_with_alex config insights).2 =
        { config with frameworks := ["AIDA"] }) := by
  constructor <;> intro h <;> simp [generate_snd, h]

theorem claim_C7_witness :
    duplicateFrameworksConfig.frameworks ≠ [] ∧
      (generate_ad_variants_with_alex duplicateFrameworksConfig emptyInsights).2 =
        duplicateFrameworksConfig :=
  ⟨by decide, (claim_C7_amended duplicateFrameworksConfig emptyInsights).1 (by decide)⟩

/-! ## Claim C4 -/

/-- C4: CTA resolution. The custom CTA text wins when non-empty after
trimming; otherwise the "Default for Objective" sentinel selects the fixed
objective-to-label mapping (with "Conversion" mapping to "Shop Now" and
unrecognized objectives to "Learn More"); otherwise the selected label is
used verbatim. This holds for the CTA of every generated variant. -/
theorem claim_C4 (config : AdConfig) (insights : ResearchInsights) (v : AdVariant)
    (hv : v ∈ (generate_ad_variants_with_alex config insights).1) :
    (pyStrip config.custom_cta ≠ "" → v.cta = pyStrip config.custom_cta) ∧
      (pyStrip config.custom_cta = "" → config.cta_label = "Default for Objective" →
        v.cta = ctaObjectiveMapping config.objective) ∧
      (pyStrip config.custom_cta = "" → config.cta_label ≠ "Default for Objective" →
        v.cta = config.cta_label) ∧
      ctaObjectiveMapping "Conversion" = "Shop Now" ∧
      (∀ objective : String,
        objective ∉ ["Awareness", "Traffic", "Conversion", "Lead Gen", "Retention"] →
        ctaObjectiveMapping objective = "Learn More") := by
  obtain ⟨fw, _, hveq⟩ := mem_generate hv
  have hcta : v.cta = choose_cta config := by
    rw [hveq, build_variant_cta, generate_snd]
    by_cases h : config.frameworks = [] <;> simp [h, choose_cta_update]
  refine ⟨?_, ?_, ?_, rfl, ?_⟩
  · intro h; rw [hcta]; unfold choose_cta; rw [if_pos h]
  · intro h1 h2; rw [hcta]; unfold choose_cta
    rw [if_neg (by simp [h1]), if_pos h2]
  · intro h1 h2; rw [hcta]; unfold choose_cta
    rw [if_neg (by simp [h1]), if_neg h2]
  · intro obj hobj
    simp only [List.mem_cons, List.not_mem_nil, or_false, not_or] at hobj
    obtain ⟨h1, h2, h3, h4, h5⟩ := hobj
    unfold ctaObjectiveMapping
    rw [if_neg h1, if_neg h2, if_neg h3, if_neg h4, if_neg h5]

theorem claim_C4_witness :
    (generate_ad_variants_with_alex ctaWitnessConfig emptyInsights).1.headI ∈
        (generate_ad_variants_with_alex ctaWitnessConfig emptyInsights).1 ∧
      (generate_ad_variants_with_alex ctaWitnessConfig emptyInsights).1.headI.cta =
        "Shop Now" := by
  have hne : (generate_ad_variants_with_alex ctaWitnessConfig emptyInsights).1 ≠ [] := by
    simp [generate_ad_variants_with_alex, ctaWitnessConfig]
  refine ⟨headI_mem hne, ?_⟩
  have h := claim_C4 ctaWitnessConfig emptyInsights
    (generate_ad_variants_with_alex ctaWitnessConfig emptyInsights).1.headI (headI_mem hne)
  exact (h.2.1 (by decide) (by decide)).trans h.2.2.2.1

/-! ## Claim C5 -/

/-- C5: for every non-empty product description the analysis entry point
returns non-empty pains and desires lists (a generic sentence is synthesized
when no matching lines were found); the objections list is exactly the
classifier output, with no fallback, and can be empty. -/
theorem claim_C5 (product_description voc_text : String)
    (h : product_description ≠ "") :
    (analyze_market_text product_description voc_text).pains ≠ [] ∧
      (analyze_market_text product_description voc_text).desires ≠ [] ∧
      (analyze_market_text product_description voc_text).objections =
        classify voc_text OBJECTION_TRIGGERS ∧
      (analyze_market_text "x" "").objections = [] := by
  refine ⟨?_, ?_, rfl, by decide⟩
  · show painsOf product_description voc_text ≠ []
    unfold painsOf
    by_cases hp : classify voc_text PAIN_TRIGGERS = []
    · rw [if_pos ⟨hp, h⟩]; simp
    · rw [if_neg (fun hc => hp hc.1)]; exact hp
  · show desiresOf product_description voc_text ≠ []
    unfold desiresOf
    by_cases hp : classify voc_text DESIRE_TRIGGERS = []
    · rw [if_pos ⟨hp, h⟩]; simp
    · rw [if_neg (fun hc => hp hc.1)]; exact hp

theorem claim_C5_witness :
    ("x" : String) ≠ "" ∧ (analyze_market_text "x" "").pains ≠ [] ∧
      (analyze_market_text "x" "").desires ≠ [] :=
  ⟨by decide, (claim_C5 "x" "" (by decide)).1, (claim_C5 "x" "" (by decide)).2.1⟩

/-! ## Claim C10 -/

/-- C10: when the product description is empty or whitespace-only, the
headline product name falls back to "Your Product", and every variant
headline is non-empty, for every framework. -/
theorem claim_C10 (config : AdConfig) (insights : ResearchInsights) (framework : String)
    (h : config.product_description.data.all Char.isWhitespace) :
    headlineProductName config.product_description = "Your Product" ∧
      generate_headline config insights framework ≠ "" ∧
      (∀ v ∈ (generate_ad_variants_with_alex config insights).1, v.headline ≠ "") := by
  have hstrip : (pyStrip config.product_description).data = [] := by
    unfold pyStrip stripChars
    have h1 : config.product_description.data.dropWhile Char.isWhitespace = [] :=
      List.dropWhile_eq_nil_iff.mpr (fun x hx => List.all_eq_true.mp h x hx)
    rw [h1]; rfl
  have hprod : headlineProductName config.product_description = "Your Product" := by
    unfold headlineProductName pyWords
    rw [hstrip]
    rfl
  have hne : ∀ fw : String, generate_headline config insights fw ≠ "" := by
    intro fw
    simp only [generate_headline]
    rw [hprod]
    split_ifs <;> (repeat' apply ne_empty_left) <;> decide
  refine ⟨hprod, hne framework, ?_⟩
  intro v hv
  obtain ⟨fw, _, hveq⟩ := mem_generate hv
  rw [hveq, build_variant_headline, generate_snd]
  by_cases hfw : config.frameworks = []
  · rw [if_pos hfw, generate_headline_update]; exact hne fw
  · rw [if_neg hfw]; exact hne fw

theorem claim_C10_witness :
    (" " : String).data.all Char.isWhitespace ∧
      headlineProductName " " = "Your Product" :=
  ⟨by decide, (claim_C10 whitespaceConfig emptyInsights "AIDA" (by decide)).1⟩

/-! ## Claim C8 (corrected) -/

/-- C8 is false as stated: for an unknown framework the body of the variant is the
trimmed, first-letter-capitalized product description (further subject to the
voice-style pass), not the bare product description: "hello world" yields the
body "Hello world". -/
theorem claim_C8_counterexample :
    (generate_ad_variants_with_alex unknownFrameworkConfig emptyInsights).1.headI.body =
        "Hello world" ∧
      unknownFrameworkConfig.product_description = "hello world" ∧
      (generate_ad_variants_with_alex unknownFrameworkConfig emptyInsights).1.headI.body ≠
        unknownFrameworkConfig.product_description :=
  ⟨by decide, rfl, by decide⟩

/-- C8 amended: an unknown framework name degrades gracefully instead of
erroring: the body of the variant is the trimmed capitalized product description
with only the voice-style pass applied (so exactly that description when the
voice style is "Balanced"), and its headline is the generic template. -/
theorem claim_C8_amended (config : AdConfig) (insights : ResearchInsights) (v : AdVariant)
    (hv : v ∈ (generate_ad_variants_with_alex config insights).1)
    (hfw : v.framework ∉ (["AIDA", "PAS", "4Ps", "Story"] : List String)) :
    v.body = simplify_text_level (pyCapitalize (pyStrip config.product_description))
        config.voice_style ∧
      (config.voice_style = "Balanced" →
        v.body = pyCapitalize (pyStrip config.product_description)) ∧
      v.headline = headlineProductName config.product_description ++ ": Experience " ++
        pyTitle (choose_keyword insights) ++ " Today" := by
  obtain ⟨fw, _, hveq⟩ := mem_generate hv
  have hfweq : v.framework = fw := by rw [hveq, build_variant_framework]
  rw [hfweq] at hfw
  simp only [List.mem_cons, List.not_mem_nil, or_false, not_or] at hfw
  obtain ⟨h1, h2, h3, h4⟩ := hfw
  have hbody : v.body = generate_body config insights fw := by
    rw [hveq, build_variant_body, generate_snd]
    by_cases hemp : config.frameworks = []
    · rw [if_pos hemp, generate_body_update]
    · rw [if_neg hemp]
  have hhead : v.headline = generate_headline config insights fw := by
    rw [hveq, build_variant_headline, generate_snd]
    by_cases hemp : config.frameworks = []
    · rw [if_pos hemp, generate_headline_update]
    · rw [if_neg hemp]
  have hb : v.body = simplify_text_level (pyCapitalize (pyStrip config.product_description))
      config.voice_style := by
    rw [hbody]
    simp only [generate_body, h1, h2, h3, h4, if_false]
  refine ⟨hb, fun hbal => ?_, ?_⟩
  · rw [hb, hbal]
    unfold simplify_text_level
    rw [if_neg (by decide), if_neg (by decide)]
  · rw [hhead]
    simp only [generate_headline, h1, h2, h3, h4, if_false]

theorem claim_C8_witness :
    (generate_ad_variants_with_alex unknownFrameworkConfig emptyInsights).1.headI.framework ∉
        (["AIDA", "PAS", "4Ps", "Story"] : List String) ∧
      (generate_ad_variants_with_alex unknownFrameworkConfig emptyInsights).1.headI.body =
        pyCapitalize (pyStrip "hello world") := by
  have hne : (generate_ad_variants_with_alex unknownFrameworkConfig emptyInsights).1 ≠ [] := by
    simp [generate_ad_variants_with_alex, unknownFrameworkConfig]
  have h := claim_C8_amended unknownFrameworkConfig emptyInsights _ (headI_mem hne) (by decide)
  exact ⟨by decide, h.2.1 rfl⟩

lemma choose_keyword_opt_eq (insights : ResearchInsights) :
    choose_keyword_opt insights = some (choose_keyword insights) := by
  unfold choose_keyword_opt choose_keyword
  cases insights.top_keywords <;> simp

lemma opt_head_eq {α : Type} [DecidableEq α] (l : List α) (d : α) :
    (if l ≠ [] then l.get? 0 else (pure d : Option α)) =
      some (match l with | [] => d | a :: _ => a) := by
  cases l <;> simp

lemma opt_second_eq {α : Type} (l : List α) (d : α) :
    (if 1 < l.length then l.get? 1 else (pure d : Option α)) =
      some (match l with | _ :: b :: _ => b | _ => d) := by
  match l with
  | [] => simp
  | [a] => simp
  | a :: b :: t => simp

lemma generate_headline_opt_eq (config : AdConfig) (insights : ResearchInsights)
    (fw : String) :
    generate_headline_opt config insights fw = some (generate_headline config insights fw) := by
  unfold generate_headline_opt generate_headline
  rw [choose_keyword_opt_eq]
  split_ifs <;> rfl

lemma generate_body_opt_eq (config : AdConfig) (insights : ResearchInsights)
    (fw : String) :
    generate_body_opt config insights fw = some (generate_body config insights fw) := by
  unfold generate_body_opt generate_body
  rw [choose_keyword_opt_eq]
  by_cases hA : fw = "AIDA"
  · subst hA; rfl
  by_cases hP : fw = "PAS"
  · subst hP
    rcases insights.pains with _ | ⟨p0, _ | ⟨p1, ps⟩⟩ <;> rfl
  by_cases h4 : fw = "4Ps"
  · subst h4
    rcases insights.desires with _ | ⟨d0, ds⟩ <;> rfl
  by_cases hS : fw = "Story"
  · subst hS
    rcases insights.pains with _ | ⟨p0, _ | ⟨p1, ps⟩⟩ <;>
      rcases insights.desires with _ | ⟨d0, _ | ⟨d1, ds⟩⟩ <;>
      rcases insights.objections with _ | ⟨o0, os⟩ <;> rfl
  · simp only [if_neg hA, if_neg hP, if_neg h4, if_neg hS]
    rfl

lemma build_variant_opt_eq (config : AdConfig) (insights : ResearchInsights) (fw : String) :
    build_variant_opt config insights fw = some (build_variant config insights fw) := by
  unfold build_variant_opt build_variant
  rw [generate_headline_opt_eq, generate_body_opt_eq]
  rfl

lemma mapM_total {α β : Type} (f : α → Option β) (g : α → β)
    (h : ∀ a, f a = some (g a)) : ∀ l : List α, l.mapM f = some (l.map g) := by
  intro l
  induction l with
  | nil => rfl
  | cons a as ih => rw [List.mapM_cons, h a, ih]; rfl

/-- C9: totality. Both entry points, with every potentially-raising list
subscript of the source rendered as a checked access, always return a result
(and the generation result agrees with the unchecked embedding), for
arbitrary input text, platform, objective, framework and voice-style
strings. -/
theorem claim_C9 (product_description voc_text : String) (config : AdConfig)
    (insights : ResearchInsights) :
    (analyze_market_text_opt product_description voc_text).isSome ∧
      (generate_ad_variants_with_alex_opt config insights).isSome ∧
      generate_ad_variants_with_alex_opt config insights =
        some (generate_ad_variants_with_alex config insights).1 := by
  have hgen : generate_ad_variants_with_alex_opt config insights =
      some (generate_ad_variants_with_alex config insights).1 := by
    unfold generate_ad_variants_with_alex_opt generate_ad_variants_with_alex
    exact mapM_total _ _ (build_variant_opt_eq _ insights) _
  exact ⟨rfl, by rw [hgen]; rfl, hgen⟩

/-! ## Claim C1: infrastructure for the most_common ordering -/

lemma dedupFirstAux_subset : ∀ (seen l : List String), ∀ x ∈ dedupFirstAux seen l,
    x ∈ l ∧ x ∉ seen
  | _, [], x, hx => by simp [dedupFirstAux] at hx
  | seen, t :: ts, x, hx => by
    rw [dedupFirstAux] at hx
    by_cases ht : t ∈ seen
    · rw [if_pos ht] at hx
      obtain ⟨h1, h2⟩ := dedupFirstAux_subset seen ts x hx
      exact ⟨List.mem_cons_of_mem _ h1, h2⟩
    · rw [if_neg ht] at hx
      rcases List.mem_cons.mp hx with h1 | h1
      · subst h1
        exact ⟨List.mem_cons_self _ _, ht⟩
      · obtain ⟨h1', h2'⟩ := dedupFirstAux_subset (t :: seen) ts x h1
        exact ⟨List.mem_cons_of_mem _ h1', fun hc => h2' (List.mem_cons_of_mem _ hc)⟩

/-- The first-seen key list is ordered by position of first occurrence. -/
lemma dedupFirstAux_pairwise : ∀ (seen l : List String),
    (dedupFirstAux seen l).Pairwise (fun a b => l.indexOf a < l.indexOf b)
  | _, [] => by simp [dedupFirstAux]
  | seen, t :: ts => by
    rw [dedupFirstAux]
    by_cases ht : t ∈ seen
    · rw [if_pos ht]
      refine (dedupFirstAux_pairwise seen ts).imp_of_mem ?_
      intro a b ha hb hab
      have hat : a ≠ t := by
        intro h; subst h; exact (dedupFirstAux_subset seen ts a ha).2 ht
      have hbt : b ≠ t := by
        intro h; subst h; exact (dedupFirstAux_subset seen ts b hb).2 ht
      rw [List.indexOf_cons_ne _ (Ne.symm hat), List.indexOf_cons_ne _ (Ne.symm hbt)]
      exact Nat.succ_lt_succ hab
    · rw [if_neg ht]
      refine List.pairwise_cons.mpr ⟨?_, ?_⟩
      · intro b hb
        have hbt : b ≠ t := by
          intro h; subst h
          exact (dedupFirstAux_subset (b :: seen) ts b hb).2 (List.mem_cons_self _ _)
        rw [List.indexOf_cons_self, List.indexOf_cons_ne _ (Ne.symm hbt)]
        exact Nat.succ_pos _
      · refine (dedupFirstAux_pairwise (t :: seen) ts).imp_of_mem ?_
        intro a b ha hb hab
        have hat : a ≠ t := by
          intro h; subst h
          exact (dedupFirstAux_subset (a :: seen) ts a ha).2 (List.mem_cons_self _ _)
        have hbt : b ≠ t := by
          intro h; subst h
          exact (dedupFirstAux_subset (b :: seen) ts b hb).2 (List.mem_cons_self _ _)
        rw [List.indexOf_cons_ne _ (Ne.symm hat), List.indexOf_cons_ne _ (Ne.symm hbt)]
        exact Nat.succ_lt_succ hab

/-- The first-seen key list is ordered by position of first occurrence. -/
lemma dedupFirst_pairwise (l : List String) :
    (dedupFirst l).Pairwise (fun a b => l.indexOf a < l.indexOf b) :=
  dedupFirstAux_pairwise [] l

lemma idxList_mem_le {α : Type} : ∀ (n : Nat) (l : List α) (x : Nat × α),
    x ∈ idxList n l → n ≤ x.1
  | _, [], x, hx => by simp [idxList] at hx
  | n, a :: as, x, hx => by
    rw [idxList] at hx
    rcases List.mem_cons.mp hx with h | h
    · subst h; exact Nat.le_refl n
    · exact Nat.le_trans (Nat.le_succ n) (idxList_mem_le (n + 1) as x h)

lemma idxList_mem_snd {α : Type} : ∀ (n : Nat) (l : List α) (x : Nat × α),
    x ∈ idxList n l → x.2 ∈ l
  | _, [], x, hx => by simp [idxList] at hx
  | n, a :: as, x, hx => by
    rw [idxList] at hx
    rcases List.mem_cons.mp hx with h | h
    · subst h; exact List.mem_cons_self _ _
    · exact List.mem_cons_of_mem _ (idxList_mem_snd (n + 1) as x h)

/-- Position-tag order recovers a pairwise relation of the tagged list. -/
lemma idxList_rel {α : Type} (S : α → α → Prop) : ∀ (n : Nat) (l : List α),
    l.Pairwise S → ∀ x y : Nat × α, x ∈ idxList n l → y ∈ idxList n l →
      x.1 < y.1 → S x.2 y.2
  | _, [], _, x, _, hx, _, _ => by simp [idxList] at hx
  | n, a :: as, hp, x, y, hx, hy, hxy => by
    rw [idxList] at hx hy
    rcases List.pairwise_cons.mp hp with ⟨hhead, htail⟩
    rcases List.mem_cons.mp hx with h1 | h1
    · rcases List.mem_cons.mp hy with h2 | h2
      · subst h1; subst h2; exact absurd hxy (lt_irrefl _)
      · subst h1; exact hhead y.2 (idxList_mem_snd _ _ y h2)
    · rcases List.mem_cons.mp hy with h2 | h2
      · subst h2
        have hxe := idxList_mem_le (n + 1) as x h1
        have hy1 : ((n, a) : Nat × α).1 = n := rfl
        rw [hy1] at hxy
        omega
      · exact idxList_rel S (n + 1) as htail x y h1 h2 hxy

lemma idxList_pairwise_fst {α : Type} : ∀ (n : Nat) (l : List α),
    (idxList n l).Pairwise (fun a b => a.1 < b.1)
  | _, [] => by simp [idxList]
  | n, a :: as => by
    rw [idxList]
    refine List.pairwise_cons.mpr ⟨?_, idxList_pairwise_fst (n + 1) as⟩
    intro y hy
    have := idxList_mem_le (n + 1) as y hy
    show n < y.1
    omega

lemma tokenItems_snd (tokens : List String) :
    ∀ wc ∈ tokenItems tokens, wc.2 = tokens.count wc.1 := by
  intro wc hwc
  obtain ⟨w, _, rfl⟩ := List.mem_map.mp hwc
  rfl

lemma tokenItems_pairwise (tokens : List String) :
    (tokenItems tokens).Pairwise (fun x y => tokens.indexOf x.1 < tokens.indexOf y.1) := by
  unfold tokenItems
  exact List.pairwise_map.mpr (dedupFirst_pairwise tokens)

/-- Core properties of the keyword pipeline: at most 15 keywords, every
keyword has token frequency above 1, and the list is ordered by descending
frequency with ties broken by first occurrence. -/
lemma keywordsOf_spec (tokens : List String) :
    (keywordsOf tokens).length ≤ 15 ∧
      (∀ w ∈ keywordsOf tokens, 1 < tokens.count w) ∧
      (keywordsOf tokens).Pairwise (fun a b =>
        tokens.count b < tokens.count a ∨
          (tokens.count a = tokens.count b ∧ tokens.indexOf a < tokens.indexOf b)) := by
  have hperm : (sortedCounter tokens).Perm (idxList 0 (tokenItems tokens)) :=
    List.perm_insertionSort mcRel _
  have hsort : (sortedCounter tokens).Pairwise mcRel :=
    List.sorted_insertionSort mcRel _
  have hsnd : ∀ x : Nat × (String × Nat), x ∈ sortedCounter tokens →
      x.2.2 = tokens.count x.2.1 := by
    intro x hx
    exact tokenItems_snd tokens x.2 (idxList_mem_snd 0 _ x (hperm.mem_iff.mp hx))
  have hnodup : ((sortedCounter tokens).map Prod.fst).Nodup := by
    have h1 : ((idxList 0 (tokenItems tokens)).map Prod.fst).Nodup :=
      List.pairwise_map.mpr ((idxList_pairwise_fst 0 _).imp fun h => Nat.ne_of_lt h)
    exact ((hperm.map Prod.fst).nodup_iff).mpr h1
  have hfstne : (sortedCounter tokens).Pairwise (fun a b => a.1 ≠ b.1) :=
    List.pairwise_map.mp hnodup
  have hidx : ∀ x y : Nat × (String × Nat), x ∈ sortedCounter tokens →
      y ∈ sortedCounter tokens → x.1 < y.1 →
      tokens.indexOf x.2.1 < tokens.indexOf y.2.1 := by
    intro x y hx hy hxy
    exact idxList_rel _ 0 _ (tokenItems_pairwise tokens) x y
      (hperm.mem_iff.mp hx) (hperm.mem_iff.mp hy) hxy
  have hmain : (sortedCounter tokens).Pairwise (fun x y =>
      tokens.count y.2.1 < tokens.count x.2.1 ∨
        (tokens.count x.2.1 = tokens.count y.2.1 ∧
          tokens.indexOf x.2.1 < tokens.indexOf y.2.1)) := by
    refine (hsort.and hfstne).imp_of_mem ?_
    intro x y hx hy hxy
    rcases hxy with ⟨hmc, hne⟩
    rcases hmc with hlt | ⟨heq, hle⟩
    · left
      rw [← hsnd x hx, ← hsnd y hy]
      exact hlt
    · right
      refine ⟨by rw [← hsnd x hx, ← hsnd y hy]; exact heq, ?_⟩
      exact hidx x y hx hy (lt_of_le_of_ne hle hne)
  refine ⟨?_, ?_, ?_⟩
  · unfold keywordsOf
    rw [List.length_take]
    exact min_le_left _ _
  · intro w hw
    unfold keywordsOf at hw
    obtain ⟨wc, hwcf, rfl⟩ := List.mem_map.mp (List.mem_of_mem_take hw)
    have h2 := List.mem_filter.mp hwcf
    have h3 : wc ∈ (sortedCounter tokens).map Prod.snd :=
      List.mem_of_mem_take (by exact h2.1)
    obtain ⟨x, hxs, rfl⟩ := List.mem_map.mp h3
    have hgt : 1 < x.2.2 := by simpa using h2.2
    rw [hsnd x hxs] at hgt
    exact hgt
  · unfold keywordsOf mostCommon
    refine List.Pairwise.sublist (List.take_sublist _ _) ?_
    refine List.pairwise_map.mpr ?_
    refine List.Pairwise.sublist (List.filter_sublist _) ?_
    refine List.Pairwise.sublist (List.take_sublist _ _) ?_
    exact List.pairwise_map.mpr hmain

/-- C1: for every product description and secondary corpus, the keyword list
of the analysis entry point has length at most 15, every keyword occurs more
than once among the tokens of the combined source text, and the list is
ordered by descending frequency with ties broken by first-seen order. -/
theorem claim_C1 (product_description voc_text : String) :
    ((analyze_market_text product_description voc_text).top_keywords.length ≤ 15) ∧
      (∀ w ∈ (analyze_market_text product_description voc_text).top_keywords,
        1 < (tokenize (combinedText product_description voc_text)).count w) ∧
      ((analyze_market_text product_description voc_text).top_keywords.Pairwise (fun a b =>
        (tokenize (combinedText product_description voc_text)).count b <
            (tokenize (combinedText product_description voc_text)).count a ∨
          ((tokenize (combinedText product_description voc_text)).count a =
              (tokenize (combinedText product_description voc_text)).count b ∧
            (tokenize (combinedText product_description voc_text)).indexOf a <
              (tokenize (combinedText product_description voc_text)).indexOf b))) := by
  have hkeq : (analyze_market_text product_description voc_text).top_keywords =
      keywordsOf (tokenize (combinedText product_description voc_text)) := by
    simp only [analyze_market_text]
  rw [hkeq]
  exact keywordsOf_spec (tokenize (combinedText product_description voc_text))

/-! ## Claim C6: machinery for reasoning about Python str.replace -/

lemma replaceListAux_fuel (pat rep : List Char) :
    ∀ (f1 : Nat) (t : List Char) (f2 : Nat), t.length ≤ f1 → t.length ≤ f2 →
      replaceListAux pat rep f1 t = replaceListAux pat rep f2 t := by
  intro f1
  induction f1 with
  | zero =>
    intro t f2 h1 _
    have ht : t = [] := List.length_eq_zero.mp (Nat.le_zero.mp h1)
    subst ht
    cases f2 <;> rfl
  | succ f ih =>
    intro t f2 h1 h2
    cases t with
    | nil => cases f2 <;> rfl
    | cons c cs =>
      cases f2 with
      | zero => simp at h2
      | succ f2' =>
        simp only [replaceListAux]
        by_cases hcond : pat ≠ [] ∧ pat.isPrefixOf (c :: cs)
        · rw [if_pos hcond, if_pos hcond]
          have hlen : (List.drop (pat.length - 1) cs).length ≤ f := by
            rw [List.length_drop]
            simp only [List.length_cons] at h1
            omega
          have hlen2 : (List.drop (pat.length - 1) cs).length ≤ f2' := by
            rw [List.length_drop]
            simp only [List.length_cons] at h2
            omega
          rw [ih _ f2' hlen hlen2]
        · rw [if_neg hcond, if_neg hcond]
          have h1' : cs.length ≤ f := by simp only [List.length_cons] at h1; omega
          have h2' : cs.length ≤ f2' := by simp only [List.length_cons] at h2; omega
          rw [ih cs f2' h1' h2']

lemma replaceList_nil (pat rep : List Char) : replaceList pat rep [] = [] := rfl

lemma replaceList_cons_pos (pat rep : List Char) {c : Char} {cs : List Char}
    (hp : pat ≠ []) (hpre : pat <+: (c :: cs)) :
    replaceList pat rep (c :: cs) =
      rep ++ replaceList pat rep (List.drop pat.length (c :: cs)) := by
  have hplen : 0 < pat.length := List.length_pos.mpr hp
  have hd : List.drop pat.length (c :: cs) = List.drop (pat.length - 1) cs := by
    have h1 : pat.length = (pat.length - 1) + 1 := by omega
    conv_lhs => rw [h1]
    rw [List.drop_succ_cons]
  show replaceListAux pat rep (c :: cs).length (c :: cs) = _
  simp only [List.length_cons, replaceListAux]
  rw [if_pos ⟨hp, List.isPrefixOf_iff_prefix.mpr hpre⟩, hd]
  congr 1
  apply replaceListAux_fuel
  · rw [List.length_drop]; omega
  · exact le_refl _

lemma replaceList_cons_neg (pat rep : List Char) {c : Char} {cs : List Char}
    (h : ¬ pat <+: (c :: cs)) :
    replaceList pat rep (c :: cs) = c :: replaceList pat rep cs := by
  show replaceListAux pat rep (c :: cs).length (c :: cs) = _
  simp only [List.length_cons, replaceListAux]
  rw [if_neg (fun hc => h (List.isPrefixOf_iff_prefix.mp hc.2))]
  rfl

/-- Scan decomposition: either the pattern never occurs (and replacement is
the identity), or the text splits at the first occurrence position. -/
lemma replaceList_decomp (pat rep : List Char) (hp : pat ≠ []) :
    ∀ t : List Char, (replaceList pat rep t = t ∧ ¬ pat <:+: t) ∨
      ∃ j : Nat, j + pat.length ≤ t.length ∧ pat <+: t.drop j ∧
        replaceList pat rep t =
          t.take j ++ rep ++ replaceList pat rep (t.drop (j + pat.length)) := by
  intro t
  induction t with
  | nil =>
    left
    exact ⟨rfl, fun h => hp (List.infix_nil.mp h)⟩
  | cons c cs ih =>
    by_cases hpre : pat <+: (c :: cs)
    · right
      refine ⟨0, by simpa using hpre.length_le, by simpa using hpre, ?_⟩
      rw [replaceList_cons_pos pat rep hp hpre]
      simp
    · rcases ih with ⟨heq, hninf⟩ | ⟨j, hlen, hprej, heq⟩
      · left
        refine ⟨by rw [replaceList_cons_neg pat rep hpre, heq], ?_⟩
        intro hinf
        rcases List.infix_cons_iff.mp hinf with h | h
        · exact hpre h
        · exact hninf h
      · right
        refine ⟨j + 1, ?_, ?_, ?_⟩
        · simp only [List.length_cons]; omega
        · rw [List.drop_succ_cons]; exact hprej
        · rw [replaceList_cons_neg pat rep hpre, heq]
          have h2 : (c :: cs).drop (j + 1 + pat.length) = cs.drop (j + pat.length) := by
            rw [show j + 1 + pat.length = (j + pat.length) + 1 by omega, List.drop_succ_cons]
          rw [h2]
          simp [List.take_succ_cons]

/-- If the pattern does not occur, replacement is the identity. -/
lemma replaceList_id (pat rep : List Char) (hp : pat ≠ []) {t : List Char}
    (h : ¬ pat <:+: t) : replaceList pat rep t = t := by
  rcases replaceList_decomp pat rep hp t with ⟨heq, _⟩ | ⟨j, _, hprej, _⟩
  · exact heq
  · exact absurd (hprej.isInfix.trans (List.drop_suffix j t).isInfix) h

/-- If the pattern occurs, the replacement occurs in the result. -/
lemma rep_infix_replaceList (pat rep : List Char) (hp : pat ≠ []) :
    ∀ t : List Char, pat <:+: t → rep <:+: replaceList pat rep t := by
  intro t
  induction t with
  | nil => intro h; exact absurd (List.infix_nil.mp h) hp
  | cons c cs ih =>
    intro h
    by_cases hpre : pat <+: (c :: cs)
    · rw [replaceList_cons_pos pat rep hp hpre]
      exact (List.prefix_append rep _).isInfix
    · rw [replaceList_cons_neg pat rep hpre]
      have h' : pat <:+: cs := by
        rcases List.infix_cons_iff.mp h with h1 | h1
        · exact absurd h1 hpre
        · exact h1
      exact List.infix_cons (ih h')

lemma take_append_le {α : Type} (A B : List α) {m : Nat} (hm : m ≤ A.length) :
    (A ++ B).take m = A.take m := by
  rw [List.take_append_eq_append_take, show m - A.length = 0 by omega]
  simp

lemma drop_append_le {α : Type} (A B : List α) {m : Nat} (hm : m ≤ A.length) :
    (A ++ B).drop m = A.drop m ++ B := by
  rw [List.drop_append_eq_append_drop, show m - A.length = 0 by omega]
  simp

/-- An infix of a concatenation lies in the left part, in the right part, or
splits into a non-empty suffix of the left followed by a non-empty prefix of
the right. -/
lemma infix_append_split {α : Type} {q A B : List α} (h : q <:+: A ++ B) :
    q <:+: A ∨ q <:+: B ∨
      ∃ q1 q2, q = q1 ++ q2 ∧ q1 ≠ [] ∧ q2 ≠ [] ∧ q1 <:+ A ∧ q2 <+: B := by
  obtain ⟨s, u, hsu⟩ := h
  by_cases h1 : s.length + q.length ≤ A.length
  · left
    have htake2 : ((s ++ q) ++ u).take (s.length + q.length) = s ++ q :=
      List.take_left' (by simp)
    have hsq : s ++ q = A.take (s.length + q.length) := by
      rw [← htake2, hsu, take_append_le A B h1]
    refine ⟨s, A.drop (s.length + q.length), ?_⟩
    calc s ++ q ++ A.drop (s.length + q.length)
        = A.take (s.length + q.length) ++ A.drop (s.length + q.length) := by rw [← hsq]
      _ = A := List.take_append_drop _ _
  · by_cases h2 : A.length ≤ s.length
    · right; left
      have e1 : (A ++ B).drop A.length = B := List.drop_left A B
      rw [← hsu] at e1
      rw [drop_append_le _ _ (by simp only [List.length_append]; omega),
        drop_append_le _ _ h2] at e1
      exact ⟨s.drop A.length, u, e1⟩
    · right; right
      push_neg at h1 h2
      have hle : A.length ≤ (s ++ q).length := by
        simp only [List.length_append]; omega
      refine ⟨q.take (A.length - s.length), q.drop (A.length - s.length),
        (List.take_append_drop _ _).symm, ?_, ?_, ?_, ?_⟩
      · intro hq1
        rcases List.take_eq_nil_iff.mp hq1 with hk | hqnil
        · omega
        · subst hqnil
          simp only [List.length_nil] at h1
          omega
      · intro hq2
        have := congrArg List.length hq2
        rw [List.length_drop] at this
        simp only [List.length_nil] at this
        omega
      · have e1 : (A ++ B).take A.length = A := List.take_left' rfl
        rw [← hsu] at e1
        rw [take_append_le _ _ hle, List.take_append_eq_append_take,
          List.take_of_length_le (le_of_lt h2)] at e1
        nth_rewrite 2 [← e1]
        exact List.suffix_append s _
      · have e2 : (A ++ B).drop A.length = B := List.drop_left A B
        rw [← hsu] at e2
        rw [drop_append_le _ _ hle, List.drop_append_eq_append_drop,
          List.drop_eq_nil_of_le (le_of_lt h2), List.nil_append] at e2
        rw [← e2]
        exact List.prefix_append _ _

/-- Structure of a prefix of a replaced text: it is a prefix of the original,
or it reaches into the first inserted replacement. -/
lemma prefix_replaceList (pat rep : List Char) (hp : pat ≠ []) (s u : List Char)
    (h : u <+: replaceList pat rep s) :
    u <+: s ∨ ∃ j, j < u.length ∧ u.take j = s.take j ∧ pat <+: s.drop j ∧
      (u.drop j).take rep.length <+: rep := by
  rcases replaceList_decomp pat rep hp s with ⟨heq, _⟩ | ⟨j, hlen, hprej, heq⟩
  · left; rw [heq] at h; exact h
  · rw [heq] at h
    have hplen : 0 < pat.length := List.length_pos.mpr hp
    have hjs : j ≤ s.length := by omega
    have hAlen : (s.take j).length = j := by rw [List.length_take]; omega
    have e := List.prefix_iff_eq_take.mp h
    by_cases hj : u.length ≤ j
    · left
      have h1 : u = s.take u.length := by
        rw [List.append_assoc] at e
        rw [take_append_le _ _ (by rw [hAlen]; omega)] at e
        rw [List.take_take, show u.length ⊓ j = u.length by omega] at e
        exact e
      rw [h1]
      exact List.take_prefix _ _
    · right
      push_neg at hj
      refine ⟨j, hj, ?_, hprej, ?_⟩
      · have e1 : u.take j = s.take j := by
          conv_lhs => rw [e]
          rw [List.take_take, show j ⊓ u.length = j by omega,
            take_append_le _ _ (by rw [List.length_append, hAlen]; omega),
            take_append_le _ _ (le_of_eq hAlen.symm),
            List.take_take, Nat.min_self]
        exact e1
      · have e2 : u.drop j =
            (rep ++ replaceList pat rep (s.drop (j + pat.length))).take (u.length - j) := by
          conv_lhs => rw [e]
          rw [List.drop_take, List.append_assoc,
            drop_append_le _ _ (le_of_eq hAlen.symm),
            List.drop_eq_nil_of_le (le_of_eq hAlen), List.nil_append]
        rw [e2, List.take_take,
          take_append_le _ _ (min_le_left rep.length (u.length - j))]
        exact List.take_prefix _ _

/-- Non-creation: if `q` does not occur in the text and satisfies decidable
boundary side conditions with respect to the pattern and the replacement,
then `q` does not occur after replacement either. -/
lemma not_infix_replaceList (pat rep q : List Char) (hp : pat ≠ []) (hq : q ≠ [])
    (hqr : ¬ q <:+: rep)
    (hspan : ∀ k, k < q.length → 0 < k → q.take k <:+ rep →
      (q.take k <:+ pat ∧
        ∀ j, j < q.length - k → ¬ ((q.drop k).drop j).take rep.length <+: rep))
    (hB : ∀ j, j < q.length - 1 → ¬ ((q.drop 1).drop j).take rep.length <+: rep) :
    ∀ n t, t.length ≤ n → ¬ q <:+: t → ¬ q <:+: replaceList pat rep t := by
  intro n
  induction n with
  | zero =>
    intro t ht hqt
    have hnil : t = [] := List.length_eq_zero.mp (Nat.le_zero.mp ht)
    subst hnil
    rw [replaceList_nil]
    exact hqt
  | succ n ih =>
    intro t ht hqt hcon
    cases t with
    | nil => rw [replaceList_nil] at hcon; exact hqt hcon
    | cons c cs =>
      by_cases hpre : pat <+: (c :: cs)
      · rw [replaceList_cons_pos pat rep hp hpre] at hcon
        rcases infix_append_split hcon with h1 | h1 |
          ⟨q1, q2, hq12, hq1ne, hq2ne, hq1suf, hq2pre⟩
        · exact hqr h1
        · have hlen : ((c :: cs).drop pat.length).length ≤ n := by
            rw [List.length_drop]
            simp only [List.length_cons] at ht ⊢
            have := List.length_pos.mpr hp
            omega
          have hqd : ¬ q <:+: (c :: cs).drop pat.length := fun hc =>
            hqt (hc.trans (List.drop_suffix _ _).isInfix)
          exact ih _ hlen hqd h1
        · have hk1 : q.take q1.length = q1 := by
            rw [hq12, take_append_le _ _ (le_refl _), List.take_length]
          have hqlen : q.length = q1.length + q2.length := by
            rw [hq12, List.length_append]
          have hklt : q1.length < q.length := by
            have := List.length_pos.mpr hq2ne
            omega
          obtain ⟨hq1pat, hjall⟩ := hspan q1.length hklt (List.length_pos.mpr hq1ne)
            (by rw [hk1]; exact hq1suf)
          rw [hk1] at hq1pat
          rcases prefix_replaceList pat rep hp _ q2 hq2pre with h2 | ⟨j, hjlt, _, _, hjr⟩
          · apply hqt
            obtain ⟨w, hw⟩ := hq1pat
            obtain ⟨v, hv⟩ := h2
            refine ⟨w, v, ?_⟩
            have hsplit : pat ++ (c :: cs).drop pat.length = c :: cs := by
              conv_rhs => rw [← List.take_append_drop pat.length (c :: cs)]
              rw [← List.prefix_iff_eq_take.mp hpre]
            calc w ++ q ++ v = w ++ (q1 ++ q2) ++ v := by rw [hq12]
              _ = (w ++ q1) ++ (q2 ++ v) := by simp [List.append_assoc]
              _ = pat ++ (c :: cs).drop pat.length := by rw [hw, hv]
              _ = c :: cs := hsplit
          · have hq2d : q2 = q.drop q1.length := by
              rw [hq12]
              exact (List.drop_left q1 q2).symm
            refine hjall j (by omega) ?_
            rw [← hq2d]
            exact hjr
      · rw [replaceList_cons_neg pat rep hpre] at hcon
        rcases List.infix_cons_iff.mp hcon with h1 | h1
        · cases q with
          | nil => exact hq rfl
          | cons qh qt =>
            obtain ⟨hqh, hqt'⟩ := List.cons_prefix_cons.mp h1
            rcases prefix_replaceList pat rep hp cs qt hqt' with h2 | ⟨j, hjlt, _, _, hjr⟩
            · exact hqt (List.cons_prefix_cons.mpr ⟨hqh, h2⟩).isInfix
            · have hdrop1 : (qh :: qt).drop 1 = qt := rfl
              refine hB j (by simp only [List.length_cons]; omega) ?_
              rw [hdrop1]
              exact hjr
        · exact ih cs (by simp only [List.length_cons] at ht; omega)
            (fun hc => hqt (List.infix_cons hc)) h1

/-- The pattern itself never occurs after its replacement, provided no
non-trivial boundary of the replacement can recreate it (decidable side
conditions). No assumption on the text is needed. -/
lemma pat_not_infix_replaceList (pat rep : List Char) (hp : pat ≠ [])
    (hpr : ¬ pat <:+: rep)
    (hspan : ∀ k, k < pat.length → 0 < k → ¬ pat.take k <:+ rep)
    (hB : ∀ j, j < pat.length - 1 → ¬ ((pat.drop 1).drop j).take rep.length <+: rep) :
    ∀ n t, t.length ≤ n → ¬ pat <:+: replaceList pat rep t := by
  intro n
  induction n with
  | zero =>
    intro t ht hcon
    have hnil : t = [] := List.length_eq_zero.mp (Nat.le_zero.mp ht)
    subst hnil
    rw [replaceList_nil] at hcon
    exact hp (List.infix_nil.mp hcon)
  | succ n ih =>
    intro t ht hcon
    cases t with
    | nil =>
      rw [replaceList_nil] at hcon
      exact hp (List.infix_nil.mp hcon)
    | cons c cs =>
      by_cases hpre : pat <+: (c :: cs)
      · rw [replaceList_cons_pos pat rep hp hpre] at hcon
        rcases infix_append_split hcon with h1 | h1 |
          ⟨q1, q2, hq12, hq1ne, hq2ne, hq1suf, _⟩
        · exact hpr h1
        · refine ih _ ?_ h1
          rw [List.length_drop]
          simp only [List.length_cons] at ht ⊢
          have := List.length_pos.mpr hp
          omega
        · have hk1 : pat.take q1.length = q1 := by
            rw [hq12, take_append_le _ _ (le_refl _), List.take_length]
          have hklt : q1.length < pat.length := by
            rw [hq12, List.length_append]
            have := List.length_pos.mpr hq2ne
            omega
          exact hspan q1.length hklt (List.length_pos.mpr hq1ne)
            (by rw [hk1]; exact hq1suf)
      · rw [replaceList_cons_neg pat rep hpre] at hcon
        rcases List.infix_cons_iff.mp hcon with h1 | h1
        · obtain ⟨ph, pt, hpe⟩ := List.exists_cons_of_ne_nil hp
          subst hpe
          obtain ⟨hqh, hqt'⟩ := List.cons_prefix_cons.mp h1
          rcases prefix_replaceList (ph :: pt) rep hp cs pt hqt' with h2 | ⟨j, hjlt, _, _, hjr⟩
          · exact hpre (List.cons_prefix_cons.mpr ⟨hqh, h2⟩)
          · have hdrop1 : (ph :: pt).drop 1 = pt := rfl
            have hplen : (ph :: pt).length = pt.length + 1 := by simp
            refine hB j (by omega) ?_
            rw [hdrop1]
            exact hjr
        · exact ih cs (by simp only [List.length_cons] at ht; omega) h1

lemma simplify_simple_eq (b : String) :
    simplify_text_level b "Simple" = simplify_text_level b "Very Simple" := by
  unfold simplify_text_level
  rw [if_pos (by decide : ("Simple" : String) = "Very Simple" ∨ ("Simple" : String) = "Simple"),
    if_pos (by decide :
      ("Very Simple" : String) = "Very Simple" ∨ ("Very Simple" : String) = "Simple")]

lemma simplify_vs_unfold (b : String) :
    simplify_text_level b "Very Simple" =
      pyReplace (pyReplace (pyReplace (pyReplace (pyReplace (pyReplace (pyReplace
        (pyReplace b "optimize" "improve") "Optimize" "Improve")
        "conversion" "results") "Conversion" "Results")
        "experience" "use") "Experience" "Use")
        "leverage" "use") "Leverage" "Use" := by
  unfold simplify_text_level
  rw [if_pos (by decide :
    ("Very Simple" : String) = "Very Simple" ∨ ("Very Simple" : String) = "Simple")]
  rfl

lemma simplify_balanced (b : String) : simplify_text_level b "Balanced" = b := by
  unfold simplify_text_level
  rw [if_neg (by decide :
      ¬ (("Balanced" : String) = "Very Simple" ∨ ("Balanced" : String) = "Simple")),
    if_neg (by decide : ¬ ("Balanced" : String) = "Technical")]

lemma simplify_technical (b : String) : simplify_text_level b "Technical" =
    b ++ "\n\nTech note: Built with data-driven optimization in mind." := by
  unfold simplify_text_level
  rw [if_neg (by decide :
      ¬ (("Technical" : String) = "Very Simple" ∨ ("Technical" : String) = "Simple")),
    if_pos (by decide : ("Technical" : String) = "Technical")]

lemma pyReplace_id (s pat rep : String) (hp : pat.data ≠ [])
    (h : ¬ pat.data <:+: s.data) : pyReplace s pat rep = s := by
  unfold pyReplace
  rw [replaceList_id pat.data rep.data hp h]

/-- The rewritten body never contains "optimize" after the Very Simple
substitution pass, for any input body. -/
lemma no_optimize_very_simple (b : String) :
    ¬ "optimize".data <:+: (simplify_text_level b "Very Simple").data := by
  rw [simplify_vs_unfold]
  refine not_infix_replaceList "Leverage".data "Use".data "optimize".data
    (by decide) (by decide) (by decide) (by decide) (by decide) _ _ (le_refl _) ?_
  refine not_infix_replaceList "leverage".data "use".data "optimize".data
    (by decide) (by decide) (by decide) (by decide) (by decide) _ _ (le_refl _) ?_
  refine not_infix_replaceList "Experience".data "Use".data "optimize".data
    (by decide) (by decide) (by decide) (by decide) (by decide) _ _ (le_refl _) ?_
  refine not_infix_replaceList "experience".data "use".data "optimize".data
    (by decide) (by decide) (by decide) (by decide) (by decide) _ _ (le_refl _) ?_
  refine not_infix_replaceList "Conversion".data "Results".data "optimize".data
    (by decide) (by decide) (by decide) (by decide) (by decide) _ _ (le_refl _) ?_
  refine not_infix_replaceList "conversion".data "results".data "optimize".data
    (by decide) (by decide) (by decide) (by decide) (by decide) _ _ (le_refl _) ?_
  refine not_infix_replaceList "Optimize".data "Improve".data "optimize".data
    (by decide) (by decide) (by decide) (by decide) (by decide) _ _ (le_refl _) ?_
  exact pat_not_infix_replaceList "optimize".data "improve".data
    (by decide) (by decide) (by decide) (by decide) _ _ (le_refl _)

/-- If the body contains "optimize" and none of the other substitution
patterns, the rewritten body contains "improve". -/
lemma improve_very_simple (b : String)
    (hopt : "optimize".data <:+: b.data)
    (hno : ∀ p ∈ JARGON_PATTERNS, ¬ p.data <:+: b.data) :
    "improve".data <:+: (simplify_text_level b "Very Simple").data := by
  rw [simplify_vs_unfold]
  have h1 : "improve".data <:+: (pyReplace b "optimize" "improve").data :=
    rep_infix_replaceList "optimize".data "improve".data (by decide) b.data hopt
  have step : ∀ p ∈ JARGON_PATTERNS,
      ¬ p.data <:+: (pyReplace b "optimize" "improve").data := by
    intro p hp
    have hb := hno p hp
    fin_cases hp <;>
      exact not_infix_replaceList "optimize".data "improve".data _
        (by decide) (by decide) (by decide) (by decide) (by decide) _ _ (le_refl _) hb
  rw [pyReplace_id _ _ _ (by decide) (step "Optimize" (by decide)),
    pyReplace_id _ _ _ (by decide) (step "conversion" (by decide)),
    pyReplace_id _ _ _ (by decide) (step "Conversion" (by decide)),
    pyReplace_id _ _ _ (by decide) (step "experience" (by decide)),
    pyReplace_id _ _ _ (by decide) (step "Experience" (by decide)),
    pyReplace_id _ _ _ (by decide) (step "leverage" (by decide)),
    pyReplace_id _ _ _ (by decide) (step "Leverage" (by decide))]
  exact h1

/-- C6 is false as stated: the body "optimizexperience" contains "optimize",
but its Very Simple rewrite is "improvuse", which does not contain "improve"
(the "experience" substitution consumes the produced "improve"). -/
theorem claim_C6_counterexample :
    ("optimize".data <:+: "optimizexperience".data) ∧
      simplify_text_level "optimizexperience" "Very Simple" = "improvuse" ∧
      ¬ "improve".data <:+:
        (simplify_text_level "optimizexperience" "Very Simple").data :=
  ⟨by decide, by decide, by decide⟩

/-- C6 amended: for voice styles "Very Simple" and "Simple" the rewritten
body never contains "optimize"; if moreover the body contains "optimize" and
none of the other jargon substitution patterns (or their capitalized forms),
the rewritten body contains "improve". For "Balanced" the body is returned
unmodified, and for "Technical" the fixed technical-flavor sentence is
appended. -/
theorem claim_C6_amended (body : String) :
    (¬ "optimize".data <:+: (simplify_text_level body "Very Simple").data) ∧
      (¬ "optimize".data <:+: (simplify_text_level body "Simple").data) ∧
      (("optimize".data <:+: body.data ∧
          ∀ p ∈ JARGON_PATTERNS, ¬ p.data <:+: body.data) →
        "improve".data <:+: (simplify_text_level body "Very Simple").data ∧
          "improve".data <:+: (simplify_text_level body "Simple").data) ∧
      simplify_text_level body "Balanced" = body ∧
      simplify_text_level body "Technical" =
        body ++ "\n\nTech note: Built with data-driven optimization in mind." := by
  refine ⟨no_optimize_very_simple body, ?_, fun h => ?_, simplify_balanced body,
    simplify_technical body⟩
  · rw [simplify_simple_eq]
    exact no_optimize_very_simple body
  · exact ⟨improve_very_simple body h.1 h.2, by
      rw [simplify_simple_eq]
      exact improve_very_simple body h.1 h.2⟩

theorem claim_C6_witness :
    ("optimize".data <:+: "optimize it".data ∧
        ∀ p ∈ JARGON_PATTERNS, ¬ p.data <:+: "optimize it".data) ∧
      "improve".data <:+: (simplify_text_level "optimize it" "Very Simple").data :=
  ⟨⟨by decide, by decide⟩,
    ((claim_C6_amended "optimize it").2.2.1 ⟨by decide, by decide⟩).1⟩

theorem claim_C1_witness :
    ("apple" ∈ (analyze_market_text "apple banana apple" "banana apple banana").top_keywords) ∧
      1 < (tokenize (combinedText "apple banana apple" "banana apple banana")).count "apple" :=
  ⟨by decide,
    (claim_C1 "apple banana apple" "banana apple banana").2.1 "apple" (by decide)⟩

end DeepAds
